import Mathlib

/-!
# Book Manager: a shallow embedding of `src/app.js`

The program keeps a list of book records in the browser's `localStorage`
under one key, serialised as JSON, and drives a small form-based UI.

Modelling decisions, all of them about the JavaScript platform rather than
about the repository's code:

* A record is a flat JavaScript object: an ordered list of own properties,
  no name twice, whose values are primitives (`undefined`, `null`,
  booleans, numbers, strings).  Every object `app.js` builds has this
  shape.  Properties are kept in the order of their definition; that
  JavaScript enumerates integer-like names first is not modelled.
* A number is `NaN`, `+Infinity`, `-Infinity` or a finite integer.  Every
  number `app.js` creates comes from `parseInt`, hence is integer valued.
  `-0` is identified with `0`: `===`, `JSON.stringify`, truthiness,
  `String.prototype.repeat` and subtraction do not tell them apart.
* The text stored in `localStorage` is represented by the JSON document it
  denotes (`Doc`): `JSON.stringify` produces the document, `JSON.parse`
  reads it.  The concrete character syntax of JSON is not modelled, nor is
  a stored text that is not the JSON of an array of objects, nor a full
  storage.
* `crypto.randomUUID()` is an explicit argument: the identifier drawn.
* What the page markup and the DOM decide is a parameter (`Browser`) or
  part of the state the constructor receives (`Elements`).
-/

namespace BookManager

/-! ## JavaScript values -/

/-- A JavaScript Number as it occurs in the program: not-a-number, the two
infinities, or a finite integer value. -/
inductive JSNum where
  | nan
  | posInf
  | negInf
  | fin (i : Int)
  deriving DecidableEq

/-- A primitive JavaScript value. -/
inductive JSVal where
  | undefined
  | null
  | bool (b : Bool)
  | num (n : JSNum)
  | str (s : String)
  deriving DecidableEq

/-- A scalar of a JSON document: JSON has no `undefined`, no `NaN` and no
infinities. -/
inductive Json where
  | null
  | bool (b : Bool)
  | num (i : Int)
  | str (s : String)
  deriving DecidableEq

/-- The own properties of a flat JavaScript object, in enumeration order,
each with its primitive value. -/
abbrev Props := List (String × JSVal)

/-- A JSON object of scalars, members in textual order. -/
abbrev DocRecord := List (String × Json)

/-- A JSON document that is an array of flat objects: what `saveBooks`
writes under the key. -/
abbrev Doc := List DocRecord

/-- The strict equality operator `a === b` on primitives. -/
def strictEq : JSVal → JSVal → Bool
  | .undefined, .undefined => true
  | .null, .null => true
  | .bool a, .bool b => a == b
  | .num .nan, .num _ => false
  | .num _, .num .nan => false
  | .num a, .num b => a == b
  | .str a, .str b => a == b
  | _, _ => false

/-- The boolean a value converts to in a condition (`ToBoolean`). -/
def truthy : JSVal → Bool
  | .undefined => false
  | .null => false
  | .bool b => b
  | .num .nan => false
  | .num (.fin i) => i != 0
  | .num _ => true
  | .str s => s != ""

/-- The value found under a property name, `undefined` when there is
none. -/
def lookupProp (ps : Props) (k : String) : JSVal :=
  match ps with
  | [] => .undefined
  | (k', v) :: rest => if k' = k then v else lookupProp rest k

/-- Defining a property: an existing name keeps its place and takes the new
value, a new name goes last. -/
def assignProp (ps : Props) (k : String) (v : JSVal) : Props :=
  match ps with
  | [] => [(k, v)]
  | (k', v') :: rest =>
    if k' = k then (k', v) :: rest else (k', v') :: assignProp rest k v

/-- Defining the properties of `l` one after the other on top of `acc`. -/
def assignAll (acc l : Props) : Props :=
  l.foldl (fun ps kv => assignProp ps kv.1 kv.2) acc

theorem assignProp_of_not_mem (ps : Props) (k : String) (v : JSVal)
    (h : k ∉ ps.map Prod.fst) : assignProp ps k v = ps ++ [(k, v)] := by
  induction ps with
  | nil => rfl
  | cons kv rest ih =>
    obtain ⟨k0, v0⟩ := kv
    simp only [List.map_cons, List.mem_cons, not_or] at h
    have h0 : ¬ k0 = k := fun e => h.1 e.symm
    simp only [assignProp, h0, if_false, List.cons_append]
    rw [ih h.2]

theorem map_fst_assignProp_of_mem (ps : Props) (k : String) (v : JSVal)
    (h : k ∈ ps.map Prod.fst) : (assignProp ps k v).map Prod.fst = ps.map Prod.fst := by
  induction ps with
  | nil => simp at h
  | cons kv rest ih =>
    obtain ⟨k0, v0⟩ := kv
    by_cases h0 : k0 = k
    · simp [assignProp, h0]
    · have h1 : k ∈ rest.map Prod.fst := by
        simp only [List.map_cons, List.mem_cons] at h
        rcases h with h | h
        · exact absurd h.symm h0
        · exact h
      simp [assignProp, h0, ih h1]

theorem nodup_assignProp (ps : Props) (k : String) (v : JSVal)
    (h : (ps.map Prod.fst).Nodup) : ((assignProp ps k v).map Prod.fst).Nodup := by
  by_cases hk : k ∈ ps.map Prod.fst
  · rw [map_fst_assignProp_of_mem ps k v hk]
    exact h
  · rw [assignProp_of_not_mem ps k v hk]
    simp only [List.map_append, List.map_cons, List.map_nil]
    rw [List.nodup_append]
    refine ⟨h, List.nodup_singleton k, ?_⟩
    intro a ha hb
    simp only [List.mem_singleton] at hb
    subst hb
    exact hk ha

theorem nodup_assignAll (l acc : Props) (h : (acc.map Prod.fst).Nodup) :
    ((assignAll acc l).map Prod.fst).Nodup := by
  induction l generalizing acc with
  | nil => simpa [assignAll] using h
  | cons kv rest ih =>
    simp only [assignAll, List.foldl_cons]
    exact ih _ (nodup_assignProp acc kv.1 kv.2 h)

/-- A flat JavaScript object: own properties with primitive values, no
name twice. -/
structure Record where
  props : Props
  nodup : (props.map Prod.fst).Nodup
  deriving DecidableEq

/-- The object literal with the listed properties, defined left to right
(a name written twice keeps its first place and its last value). -/
def obj (l : Props) : Record :=
  ⟨assignAll [] l, nodup_assignAll l [] List.nodup_nil⟩

/-- Property read `o.k`. -/
def getProp (o : Record) (k : String) : JSVal := lookupProp o.props k

/-- Property write `o.k = v`. -/
def setProp (o : Record) (k : String) (v : JSVal) : Record :=
  ⟨assignProp o.props k v, nodup_assignProp o.props k v o.nodup⟩

/-- The names of the own properties of an object. -/
def keys (o : Record) : List String := o.props.map Prod.fst

/-- The object literal `{ ...a, ...b }`: a fresh object that receives the
properties of `a` and then those of `b`. -/
def spread (a b : Record) : Record :=
  ⟨assignAll (assignAll [] a.props) b.props,
    nodup_assignAll b.props _ (nodup_assignAll a.props [] List.nodup_nil)⟩

/-- `Array.prototype.findIndex`: the first index whose element satisfies
the predicate; `none` stands for the result `-1`. -/
def findIndex (p : Record → Bool) : List Record → Option Nat
  | [] => none
  | b :: bs => if p b then some 0 else (findIndex p bs).map (· + 1)

/-! ## JSON -/

/-- `JSON.parse` on a scalar. -/
def JSON.parseValue : Json → JSVal
  | .null => .null
  | .bool b => .bool b
  | .num i => .num (.fin i)
  | .str s => .str s

/-- `JSON.parse` on an object: members are defined in textual order, a
repeated member name overwrites the earlier value. -/
def JSON.parseObject (d : DocRecord) : Record :=
  obj (d.map (fun kv => (kv.1, JSON.parseValue kv.2)))

/-- `JSON.parse` on an array of objects. -/
def JSON.parse (doc : Doc) : List Record := doc.map JSON.parseObject

/-- `JSON.stringify` on a property value: `none` when the property is left
out (`undefined`); `NaN` and the infinities are written as `null`. -/
def JSON.stringifyValue : JSVal → Option Json
  | .undefined => none
  | .null => some .null
  | .bool b => some (.bool b)
  | .num (.fin i) => some (.num i)
  | .num _ => some .null
  | .str s => some (.str s)

/-- `JSON.stringify` on an object. -/
def JSON.stringifyObject (o : Record) : DocRecord :=
  o.props.filterMap (fun kv => (JSON.stringifyValue kv.2).map (fun j => (kv.1, j)))

/-- `JSON.stringify` on an array of objects. -/
def JSON.stringify (books : List Record) : Doc := books.map JSON.stringifyObject

/-! ## Storage -/

/-- The item held by `localStorage` under `Storage.KEY`: `none` while the
key has never been written (`getItem` returns `null`). -/
abbrev LocalStorage := Option Doc

/-- `Storage.getBooks`.  A JSON text is a non-empty string, so a stored
value is always truthy and is parsed; a missing key gives the empty list. -/
def Storage.getBooks (ls : LocalStorage) : List Record :=
  match ls with
  | some books => JSON.parse books
  | none => []

/-- `Storage.saveBooks`: overwrite the item with the serialised list. -/
def Storage.saveBooks (books : List Record) (_ls : LocalStorage) : LocalStorage :=
  some (JSON.stringify books)

/-- `Storage.addBook`, with `uuid` the value of `crypto.randomUUID()`.
Returns the book and the new storage. -/
def Storage.addBook (book : Record) (uuid : String) (ls : LocalStorage) :
    Record × LocalStorage :=
  let books := Storage.getBooks ls
  let book := setProp book "id" (.str uuid)
  let books := books ++ [book]
  (book, Storage.saveBooks books ls)

/-- `Storage.updateBook`.  The result `none` stands for `null`. -/
def Storage.updateBook (id : JSVal) (updates : Record) (ls : LocalStorage) :
    Option Record × LocalStorage :=
  let books := Storage.getBooks ls
  match findIndex (fun book => strictEq (getProp book "id") id) books with
  | some index =>
    let books := books.set index (spread (books.getD index (obj [])) updates)
    (books[index]?, Storage.saveBooks books ls)
  | none => (none, ls)

/-- `Storage.deleteBook`. -/
def Storage.deleteBook (id : JSVal) (ls : LocalStorage) : LocalStorage :=
  let books := Storage.getBooks ls
  let filteredBooks := books.filter (fun book => !strictEq (getProp book "id") id)
  Storage.saveBooks filteredBooks ls

/-! ## Number parsing and string building -/

/-- White space and line terminators that `parseInt` skips at the start of
its input (`StrWhiteSpaceChar`). -/
def isStrWhiteSpaceChar (c : Char) : Bool :=
  let n := c.toNat
  n == 0x09 || n == 0x0A || n == 0x0B || n == 0x0C || n == 0x0D || n == 0x20
    || n == 0xA0 || n == 0x1680 || (0x2000 ≤ n && n ≤ 0x200A) || n == 0x2028
    || n == 0x2029 || n == 0x202F || n == 0x205F || n == 0x3000 || n == 0xFEFF

/-- The value of a character read as a digit: `0-9`, then `a-z` or `A-Z`
for ten to thirty-five. -/
def digitValue (c : Char) : Option Nat :=
  let n := c.toNat
  if 48 ≤ n ∧ n ≤ 57 then some (n - 48)
  else if 97 ≤ n ∧ n ≤ 122 then some (n - 97 + 10)
  else if 65 ≤ n ∧ n ≤ 90 then some (n - 65 + 10)
  else none

/-- The longest initial run of radix-`R` digits of the input, as digit
values. -/
def radixDigits (R : Nat) : List Char → List Nat
  | [] => []
  | c :: cs =>
    match digitValue c with
    | some d => if d < R then d :: radixDigits R cs else []
    | none => []

/-- The integer a run of radix-`R` digits denotes. -/
def mathInt (R : Nat) (ds : List Nat) : Nat :=
  ds.foldl (fun acc d => acc * R + d) 0

/-- The Number nearest to a natural number (round to nearest, ties to
even, 53 significant bits); `none` when the result is `Infinity`. -/
def toDouble (n : Nat) : Option Nat :=
  if n < 2 ^ 53 then some n
  else
    let e := Nat.log2 n - 52
    let q := n / 2 ^ e
    let r := n % 2 ^ e
    let q := if 2 ^ e < 2 * r ∨ (2 * r = 2 ^ e ∧ q % 2 = 1) then q + 1 else q
    if q * 2 ^ e < 2 ^ 1024 then some (q * 2 ^ e) else none

/-- The sign `parseInt` reads: `-1` when the trimmed input starts with a
minus sign. -/
def parseSign : List Char → Int
  | '-' :: _ => -1
  | _ => 1

/-- The input of `parseInt` after a leading plus or minus sign is removed. -/
def dropSign : List Char → List Char
  | '-' :: rest => rest
  | '+' :: rest => rest
  | s => s

/-- The radix `parseInt` uses when none is given: 16 when the input starts
with `0x` or `0X`, else 10. -/
def parseRadix : List Char → Nat
  | '0' :: 'x' :: _ => 16
  | '0' :: 'X' :: _ => 16
  | _ => 10

/-- The input of `parseInt` after a leading `0x` or `0X` is removed. -/
def dropRadixMark : List Char → List Char
  | '0' :: 'x' :: rest => rest
  | '0' :: 'X' :: rest => rest
  | s => s

/-- The global `parseInt(string)` with no radix argument, on a string. -/
def parseInt (string : String) : JSNum :=
  let s := string.toList.dropWhile isStrWhiteSpaceChar
  let sign := parseSign s
  let s := dropSign s
  let radix := parseRadix s
  let z := radixDigits radix (dropRadixMark s)
  if z.isEmpty then .nan
  else
    match toDouble (mathInt radix z) with
    | some m => .fin (sign * m)
    | none => if sign = 1 then .posInf else .negInf

/-- The character of a decimal digit. -/
def digitChar (d : Nat) : Char := Char.ofNat (48 + d)

/-- The exceptions the modelled code can throw. -/
inductive JSError where
  | rangeError
  | typeError
  deriving DecidableEq

/-- `String.prototype.repeat` applied to a count already converted to a
Number: `NaN` counts as zero, a negative or infinite count is a
`RangeError`.  The limit an engine puts on the length of a string is not
modelled. -/
def jsRepeat (s : String) (count : JSNum) : Except JSError String :=
  match count with
  | .nan => .ok ""
  | .posInf => .error .rangeError
  | .negInf => .error .rangeError
  | .fin i =>
    if i < 0 then .error .rangeError
    else .ok (String.mk (List.replicate i.toNat s.toList).flatten)

/-- The subtraction `a - x` of a small integer and a Number.  It is exact
on the integers below `2 ^ 53`; beyond them JavaScript rounds the result,
which keeps its sign. -/
def numSub (a : Int) : JSNum → JSNum
  | .nan => .nan
  | .posInf => .negInf
  | .negInf => .posInf
  | .fin i => .fin (a - i)

/-- `String.prototype.replace('-', ' ')` on the characters of a string:
only the first hyphen is replaced. -/
def replaceHyphen : List Char → List Char
  | [] => []
  | c :: cs => if c = '-' then ' ' :: cs else c :: replaceHyphen cs

/-! ## The page and the browser -/

/-- The values of the five controls of `bookForm`. -/
structure Form where
  title : String
  author : String
  cover : String
  status : String
  rating : String
  deriving DecidableEq

/-- What the browser and the page markup decide and `app.js` does not:
the conversion of a string to a Number, the text a form control holds
after a value is assigned to it, the values `bookForm.reset()` puts back,
and whether the markup of a book's card, once parsed by `innerHTML`, holds
the edit and the delete button that `querySelector` looks for (text of the
book that the HTML parser reads as markup can swallow them). -/
structure Browser where
  stringToNumber : String → JSNum
  assign : String → JSVal → String
  formDefaults : Form
  buttonsParsed : Record → Bool

/-- The conversion `ToNumber` on primitives. -/
def toNumber (env : Browser) : JSVal → JSNum
  | .undefined => .nan
  | .null => .fin 0
  | .bool b => .fin (if b then 1 else 0)
  | .num n => n
  | .str s => env.stringToNumber s

/-- A book card: the record its buttons act on, the status label and the
star string of its markup. -/
structure Card where
  book : Record
  statusLabel : String
  stars : String
  deriving DecidableEq

/-- A child of the `booksGrid` element. -/
inductive GridChild where
  | placeholder
  | card (c : Card)
  deriving DecidableEq

/-- The elements `initializeElements` collects, reduced to the state the
program reads or writes. -/
structure Elements where
  booksGrid : List GridChild
  modalActive : Bool
  bookForm : Form
  statusFilter : String
  modalTitle : String
  deriving DecidableEq

/-- The state of a `BooksManager` object. -/
structure BooksManager where
  elements : Elements
  editingBookId : JSVal
  deriving DecidableEq

/-- The state after an event handler ran: the manager, the storage and
the exception the handler threw, if any. -/
structure Outcome where
  manager : BooksManager
  storage : LocalStorage
  thrown : Option JSError

/-- The parts of the markup of a card that depend on more than the
conversion of a value to a string: the status label and the star string. -/
structure CardMarkup where
  statusLabel : String
  stars : String
  deriving DecidableEq

/-- The template literal `createBookCard` assigns to `card.innerHTML`.  Its
evaluation calls `book.status.replace('-', ' ')`, a `TypeError` unless the
status is a string, and then the two `repeat` calls; the other
interpolations convert a primitive to a string and cannot throw. -/
def BooksManager.cardMarkup (env : Browser) (book : Record) : Except JSError CardMarkup :=
  match getProp book "status" with
  | .str status =>
    match jsRepeat "★" (toNumber env (getProp book "rating")) with
    | .error e => .error e
    | .ok filled =>
      match jsRepeat "☆" (numSub 5 (toNumber env (getProp book "rating"))) with
      | .error e => .error e
      | .ok unfilled =>
        .ok { statusLabel := String.mk (replaceHyphen status.toList),
              stars := filled ++ unfilled }
  | _ => .error .typeError

/-- `BooksManager.createBookCard`: the markup is built, and the listeners
are added to the two buttons; `querySelector` gives `null` for a button
the parsed markup does not hold, and the call on it is a `TypeError`. -/
def BooksManager.createBookCard (env : Browser) (book : Record) : Except JSError Card :=
  match BooksManager.cardMarkup env book with
  | .error e => .error e
  | .ok markup =>
    if env.buttonsParsed book then
      .ok { book := book, statusLabel := markup.statusLabel, stars := markup.stars }
    else .error .typeError

/-- The list `renderBooks` iterates over (its local `filteredBooks`). -/
def BooksManager.filteredBooks (filter : String) (books : List Record) : List Record :=
  if filter = "all" then books
  else books.filter (fun book => strictEq (getProp book "status") (.str filter))

/-- The `forEach` loop of `renderBooks`: a card is appended per book,
until a card cannot be built. -/
def BooksManager.appendCards (env : Browser) :
    List Record → List GridChild → List GridChild × Option JSError
  | [], grid => (grid, none)
  | book :: rest, grid =>
    match BooksManager.createBookCard env book with
    | .ok c => BooksManager.appendCards env rest (grid ++ [.card c])
    | .error e => (grid, some e)

/-- `BooksManager.renderBooks`. -/
def BooksManager.renderBooks (env : Browser) (m : BooksManager) (ls : LocalStorage) :
    Outcome :=
  let books := Storage.getBooks ls
  let filter := m.elements.statusFilter
  let filteredBooks := BooksManager.filteredBooks filter books
  if filteredBooks.length = 0 then
    { manager := { m with elements := { m.elements with booksGrid := [.placeholder] } },
      storage := ls, thrown := none }
  else
    let r := BooksManager.appendCards env filteredBooks []
    { manager := { m with elements := { m.elements with booksGrid := r.1 } },
      storage := ls, thrown := r.2 }

/-- `BooksManager.closeModal`. -/
def BooksManager.closeModal (env : Browser) (m : BooksManager) : BooksManager :=
  { editingBookId := .null,
    elements := { m.elements with modalActive := false, bookForm := env.formDefaults } }

/-- The object `handleSubmit` reads from the form (its local `bookData`). -/
def BooksManager.bookData (m : BooksManager) : Record :=
  obj [("title", .str m.elements.bookForm.title),
       ("author", .str m.elements.bookForm.author),
       ("cover", .str m.elements.bookForm.cover),
       ("status", .str m.elements.bookForm.status),
       ("rating", .num (parseInt m.elements.bookForm.rating))]

/-- The storage after the store call of `handleSubmit`; `uuid` is what
`crypto.randomUUID()` returns if `addBook` is reached. -/
def BooksManager.submitStore (uuid : String) (m : BooksManager) (ls : LocalStorage) :
    LocalStorage :=
  if truthy m.editingBookId then
    (Storage.updateBook m.editingBookId (BooksManager.bookData m) ls).2
  else
    (Storage.addBook (BooksManager.bookData m) uuid ls).2

/-- `BooksManager.handleSubmit`. -/
def BooksManager.handleSubmit (env : Browser) (uuid : String) (m : BooksManager)
    (ls : LocalStorage) : Outcome :=
  let ls := BooksManager.submitStore uuid m ls
  let m := BooksManager.closeModal env m
  BooksManager.renderBooks env m ls

/-- A browser for the concrete examples: every string converts to `NaN`,
every control takes the empty text, the form resets to empty fields, the
buttons of a card are always found. -/
def sampleBrowser : Browser :=
  { stringToNumber := fun _ => .nan,
    assign := fun _ _ => "",
    formDefaults := { title := "", author := "", cover := "", status := "", rating := "" },
    buttonsParsed := fun _ => true }

/-- A page whose modal is closed and whose filter shows every book. -/
def sampleElements : Elements :=
  { booksGrid := [],
    modalActive := false,
    bookForm := { title := "", author := "", cover := "", status := "", rating := "" },
    statusFilter := "all",
    modalTitle := "" }

/-- A manager whose form was filled in with the rating left empty. -/
def blankRatingManager : BooksManager :=
  { elements := { booksGrid := [],
                  modalActive := true,
                  bookForm := { title := "Dune", author := "Herbert", cover := "x.jpg",
                                status := "to-read", rating := "" },
                  statusFilter := "all",
                  modalTitle := "Add New Book" },
    editingBookId := .null }

/-! ## Sequences of user events -/

/-- `Number.isInteger` on a primitive value. -/
def isInteger : JSVal → Bool
  | .num (.fin _) => true
  | _ => false

/-! ## Sequences of storage calls -/

/-- A call of one of the three mutating operations of `Storage`; an
`addBook` call carries the identifier `crypto.randomUUID()` gives it. -/
inductive StorageCall where
  | addBook (book : Record) (uuid : String)
  | updateBook (id : JSVal) (updates : Record)
  | deleteBook (id : JSVal)

/-- The storage after one call. -/
def StorageCall.run (c : StorageCall) (ls : LocalStorage) : LocalStorage :=
  match c with
  | .addBook book uuid => (Storage.addBook book uuid ls).2
  | .updateBook id updates => (Storage.updateBook id updates ls).2
  | .deleteBook id => Storage.deleteBook id ls

/-- The storage after a sequence of calls, first call first. -/
def runCalls (cs : List StorageCall) (ls : LocalStorage) : LocalStorage :=
  cs.foldl (fun s c => c.run s) ls

/-- The identifiers the generator produced for the `addBook` calls of a
sequence, in order. -/
def drawnIds : List StorageCall → List String
  | [] => []
  | .addBook _ uuid :: cs => uuid :: drawnIds cs
  | _ :: cs => drawnIds cs

/-- No `updateBook` call of the sequence passes an `updates` object with
an `id` property. -/
def updatesLeaveId : List StorageCall → Prop
  | [] => True
  | .updateBook _ updates :: cs => "id" ∉ keys updates ∧ updatesLeaveId cs
  | _ :: cs => updatesLeaveId cs

/-- The ids of the records `getBooks()` returns, in order. -/
def storedIds (ls : LocalStorage) : List JSVal :=
  (Storage.getBooks ls).map (fun b => getProp b "id")

/-- The value a property value reads back as after serialisation. -/
def jsonNormalize (v : JSVal) : JSVal :=
  match JSON.stringifyValue v with
  | none => .undefined
  | some j => JSON.parseValue j

/-! ## Values that survive serialisation -/

/-- A value that `JSON.stringify` followed by `JSON.parse` gives back:
`null`, a boolean, a finite number or a string. -/
def isJsonValue : JSVal → Bool
  | .null => true
  | .bool _ => true
  | .num (.fin _) => true
  | .str _ => true
  | _ => false

/-- Every property value of the object is representable in JSON: the
object is a plain JSON object. -/
def JsonSafe (o : Record) : Prop := ∀ kv ∈ o.props, isJsonValue kv.2 = true

instance (o : Record) : Decidable (JsonSafe o) := by unfold JsonSafe; infer_instance

/-- What reading back gives for an object that was written: the object
as its JSON text reproduces it. -/
def jsonImage (o : Record) : Record := JSON.parseObject (JSON.stringifyObject o)

/-- The record has the given id, as `book.id === id` decides it. -/
def hasId (id : JSVal) (book : Record) : Bool := strictEq (getProp book "id") id

/-- The stored ids are pairwise different strings, each one of `used`. -/
def IdsFrom (used : List String) (ls : LocalStorage) : Prop :=
  (storedIds ls).Nodup ∧ ∀ v ∈ storedIds ls, ∃ u ∈ used, v = .str u

theorem Record.ext_props {a b : Record} (h : a.props = b.props) : a = b := by
  cases a
  cases b
  simp only [Record.mk.injEq]
  exact h

theorem lookupProp_assignProp_self (ps : Props) (k : String) (v : JSVal) :
    lookupProp (assignProp ps k v) k = v := by
  induction ps with
  | nil => simp [assignProp, lookupProp]
  | cons kv rest ih =>
    obtain ⟨k', v'⟩ := kv
    by_cases h : k' = k
    · simp [assignProp, lookupProp, h]
    · simp [assignProp, lookupProp, h, ih]

theorem lookupProp_assignProp_ne (ps : Props) (k k' : String) (v : JSVal) (h : k' ≠ k) :
    lookupProp (assignProp ps k v) k' = lookupProp ps k' := by
  induction ps with
  | nil => simp [assignProp, lookupProp, Ne.symm h]
  | cons kv rest ih =>
    obtain ⟨k0, v0⟩ := kv
    by_cases h0 : k0 = k
    · subst h0
      simp [assignProp, lookupProp, Ne.symm h]
    · by_cases h1 : k0 = k'
      · subst h1
        simp [assignProp, lookupProp, h0]
      · simp [assignProp, lookupProp, h0, h1, ih]

theorem lookupProp_of_not_mem (ps : Props) (k : String) (h : k ∉ ps.map Prod.fst) :
    lookupProp ps k = .undefined := by
  induction ps with
  | nil => rfl
  | cons kv rest ih =>
    obtain ⟨k0, v0⟩ := kv
    simp only [List.map_cons, List.mem_cons, not_or] at h
    have h0 : ¬ k0 = k := fun e => h.1 e.symm
    simp only [lookupProp, h0, if_false]
    exact ih h.2

theorem mem_assignProp (ps : Props) (k : String) (v : JSVal) (kv : String × JSVal)
    (h : kv ∈ assignProp ps k v) : kv ∈ ps ∨ kv.2 = v := by
  induction ps with
  | nil =>
    simp only [assignProp, List.mem_singleton] at h
    right
    rw [h]
  | cons e rest ih =>
    obtain ⟨k0, v0⟩ := e
    by_cases h0 : k0 = k
    · simp only [assignProp, h0, if_true, List.mem_cons] at h
      rcases h with h | h
      · right
        rw [h]
      · left
        exact List.mem_cons_of_mem _ h
    · simp only [assignProp, h0, if_false, List.mem_cons] at h
      rcases h with h | h
      · left
        rw [h]
        exact List.mem_cons_self _ _
      · rcases ih h with h1 | h1
        · left
          exact List.mem_cons_of_mem _ h1
        · right
          exact h1

theorem assignAll_of_nodup (l acc : Props) (h : ((acc ++ l).map Prod.fst).Nodup) :
    assignAll acc l = acc ++ l := by
  induction l generalizing acc with
  | nil => simp [assignAll]
  | cons kv rest ih =>
    obtain ⟨k, v⟩ := kv
    have hk : k ∉ acc.map Prod.fst := by
      simp only [List.map_append, List.map_cons] at h
      rw [List.nodup_append] at h
      intro hmem
      exact h.2.2 hmem (List.mem_cons_self _ _)
    have h2 : (((acc ++ [(k, v)]) ++ rest).map Prod.fst).Nodup := by
      simpa using h
    have := ih (acc ++ [(k, v)]) h2
    simp only [assignAll, List.foldl_cons] at this ⊢
    rw [assignProp_of_not_mem acc k v hk, this]
    simp

theorem all_assignAll (P : JSVal → Prop) (l acc : Props) (h : ∀ kv ∈ acc, P kv.2)
    (hl : ∀ kv ∈ l, P kv.2) : ∀ kv ∈ assignAll acc l, P kv.2 := by
  induction l generalizing acc with
  | nil => simpa [assignAll] using h
  | cons e rest ih =>
    simp only [assignAll, List.foldl_cons]
    refine ih _ ?_ ?_
    · intro kv hkv
      rcases mem_assignProp acc e.1 e.2 kv hkv with h1 | h1
      · exact h kv h1
      · rw [h1]
        exact hl e (List.mem_cons_self _ _)
    · intro kv hkv
      exact hl kv (List.mem_cons_of_mem _ hkv)

theorem lookupProp_assignAll (l acc : Props) (k : String) (h : (l.map Prod.fst).Nodup) :
    lookupProp (assignAll acc l) k
      = if k ∈ l.map Prod.fst then lookupProp l k else lookupProp acc k := by
  induction l generalizing acc with
  | nil => simp [assignAll]
  | cons kv rest ih =>
    obtain ⟨k0, v0⟩ := kv
    simp only [List.map_cons, List.nodup_cons] at h
    have := ih (assignProp acc k0 v0) h.2
    simp only [assignAll, List.foldl_cons] at this ⊢
    rw [this]
    by_cases hk : k0 = k
    · subst hk
      have hin : k0 ∈ List.map Prod.fst ((k0, v0) :: rest) := by simp
      rw [if_neg h.1, if_pos hin, lookupProp_assignProp_self]
      simp [lookupProp]
    · have hk' : k ≠ k0 := fun e => hk e.symm
      by_cases hm : k ∈ rest.map Prod.fst
      · have hin : k ∈ List.map Prod.fst ((k0, v0) :: rest) := by
          simp only [List.map_cons, List.mem_cons]
          exact Or.inr hm
        rw [if_pos hm, if_pos hin]
        simp [lookupProp, hk]
      · have hin : k ∉ List.map Prod.fst ((k0, v0) :: rest) := by
          simp only [List.map_cons, List.mem_cons, not_or]
          exact ⟨hk', hm⟩
        rw [if_neg hm, if_neg hin, lookupProp_assignProp_ne acc k0 k v0 hk']

theorem getProp_setProp_self (o : Record) (k : String) (v : JSVal) :
    getProp (setProp o k v) k = v :=
  lookupProp_assignProp_self o.props k v

theorem getProp_setProp_ne (o : Record) (k k' : String) (v : JSVal) (h : k' ≠ k) :
    getProp (setProp o k v) k' = getProp o k' :=
  lookupProp_assignProp_ne o.props k k' v h

theorem assignAll_nil_props (o : Record) : assignAll [] o.props = o.props := by
  have := assignAll_of_nodup o.props [] (by simpa using o.nodup)
  simpa using this

theorem getProp_spread (a b : Record) (k : String) :
    getProp (spread a b) k = if k ∈ keys b then getProp b k else getProp a k := by
  unfold getProp spread keys
  simp only
  rw [lookupProp_assignAll b.props _ k b.nodup, assignAll_nil_props]

theorem isJsonValue_parseValue (j : Json) : isJsonValue (JSON.parseValue j) = true := by
  cases j <;> rfl

theorem jsonSafe_parseObject (d : DocRecord) : JsonSafe (JSON.parseObject d) := by
  unfold JsonSafe JSON.parseObject obj
  simp only
  refine all_assignAll (fun v => isJsonValue v = true) _ [] (by simp) ?_
  intro kv hkv
  simp only [List.mem_map] at hkv
  obtain ⟨e, _, rfl⟩ := hkv
  exact isJsonValue_parseValue e.2

theorem map_parse_filterMap_stringify (ps : Props) (h : ∀ kv ∈ ps, isJsonValue kv.2 = true) :
    (ps.filterMap (fun kv => (JSON.stringifyValue kv.2).map (fun j => (kv.1, j)))).map
      (fun kv => (kv.1, JSON.parseValue kv.2)) = ps := by
  induction ps with
  | nil => rfl
  | cons e rest ih =>
    obtain ⟨k, v⟩ := e
    have hv : isJsonValue v = true := h (k, v) (List.mem_cons_self _ _)
    have hrest := ih (fun kv hkv => h kv (List.mem_cons_of_mem _ hkv))
    cases v with
    | undefined => simp [isJsonValue] at hv
    | null => simpa [List.filterMap_cons, JSON.stringifyValue, JSON.parseValue] using hrest
    | bool b => simpa [List.filterMap_cons, JSON.stringifyValue, JSON.parseValue] using hrest
    | str t => simpa [List.filterMap_cons, JSON.stringifyValue, JSON.parseValue] using hrest
    | num n =>
      cases n with
      | fin i => simpa [List.filterMap_cons, JSON.stringifyValue, JSON.parseValue] using hrest
      | nan => simp [isJsonValue] at hv
      | posInf => simp [isJsonValue] at hv
      | negInf => simp [isJsonValue] at hv

theorem parseObject_stringifyObject (o : Record) (h : JsonSafe o) :
    JSON.parseObject (JSON.stringifyObject o) = o := by
  apply Record.ext_props
  unfold JSON.parseObject JSON.stringifyObject obj
  simp only
  rw [map_parse_filterMap_stringify o.props h]
  exact assignAll_nil_props o

theorem parse_stringify (books : List Record) (h : ∀ b ∈ books, JsonSafe b) :
    JSON.parse (JSON.stringify books) = books := by
  induction books with
  | nil => rfl
  | cons b rest ih =>
    simp only [JSON.parse, JSON.stringify, List.map_cons, List.cons.injEq]
    refine ⟨parseObject_stringifyObject b (h b (List.mem_cons_self _ _)), ?_⟩
    exact ih (fun x hx => h x (List.mem_cons_of_mem _ hx))

/-! ## Lemmas on the storage operations -/

theorem jsonSafe_getBooks (ls : LocalStorage) : ∀ b ∈ Storage.getBooks ls, JsonSafe b := by
  intro b hb
  cases ls with
  | none => simp [Storage.getBooks] at hb
  | some doc =>
    simp only [Storage.getBooks, JSON.parse, List.mem_map] at hb
    obtain ⟨d, _, rfl⟩ := hb
    exact jsonSafe_parseObject d

theorem getBooks_saveBooks (books : List Record) (ls : LocalStorage)
    (h : ∀ b ∈ books, JsonSafe b) :
    Storage.getBooks (Storage.saveBooks books ls) = books := by
  simp only [Storage.getBooks, Storage.saveBooks]
  exact parse_stringify books h

theorem findIndex_none_iff (p : Record → Bool) (l : List Record) :
    findIndex p l = none ↔ ∀ b ∈ l, p b = false := by
  induction l with
  | nil => simp [findIndex]
  | cons b rest ih =>
    by_cases hb : p b = true
    · simp [findIndex, hb]
    · simp only [Bool.not_eq_true] at hb
      simp [findIndex, hb, ih]

theorem findIndex_some (p : Record → Bool) (l : List Record) (i : Nat)
    (h : findIndex p l = some i) :
    (∃ b, l[i]? = some b ∧ p b = true) ∧ ∀ j, j < i → ∀ b, l[j]? = some b → p b = false := by
  induction l generalizing i with
  | nil => simp [findIndex] at h
  | cons b rest ih =>
    by_cases hb : p b = true
    · simp only [findIndex, hb, if_true, Option.some.injEq] at h
      subst h
      exact ⟨⟨b, by simp, hb⟩, fun j hj => absurd hj (Nat.not_lt_zero j)⟩
    · simp only [findIndex, hb, Bool.false_eq_true, if_false, Option.map_eq_some'] at h
      obtain ⟨i', hi', rfl⟩ := h
      obtain ⟨⟨x, hx, hpx⟩, hlt⟩ := ih i' hi'
      refine ⟨⟨x, by simpa using hx, hpx⟩, ?_⟩
      intro j hj y hy
      cases j with
      | zero =>
        simp only [List.getElem?_cons_zero, Option.some.injEq] at hy
        subst hy
        simpa using hb
      | succ j' =>
        simp only [List.getElem?_cons_succ] at hy
        exact hlt j' (by omega) y hy

theorem jsonImage_of_jsonSafe (o : Record) (h : JsonSafe o) : jsonImage o = o :=
  parseObject_stringifyObject o h

theorem getBooks_saveBooks_map (books : List Record) (ls : LocalStorage) :
    Storage.getBooks (Storage.saveBooks books ls) = books.map jsonImage := by
  simp [Storage.getBooks, Storage.saveBooks, JSON.parse, JSON.stringify, jsonImage]

theorem getElem?_getBooks_image (ls : LocalStorage) (j : Nat) :
    (Storage.getBooks ls)[j]?.map jsonImage = (Storage.getBooks ls)[j]? := by
  cases h : (Storage.getBooks ls)[j]? with
  | none => rfl
  | some b =>
    have hb : b ∈ Storage.getBooks ls := List.getElem?_mem h
    simp [jsonImage_of_jsonSafe b (jsonSafe_getBooks ls b hb)]

/-! ## Storage: the claims -/

/-- C2.  `updateBook` returns `null` exactly when no stored record has the
id, and then the stored item is what it was before the call. -/
theorem updateBook_null_iff_absent (ls : LocalStorage) (id : JSVal) (updates : Record) :
    ((Storage.updateBook id updates ls).1 = none
      ↔ ∀ b ∈ Storage.getBooks ls, hasId id b = false) ∧
    ((Storage.updateBook id updates ls).1 = none
      → (Storage.updateBook id updates ls).2 = ls) := by
  cases hfi : findIndex (hasId id) (Storage.getBooks ls) with
  | none =>
    have hfi' : findIndex (fun book => strictEq (getProp book "id") id)
        (Storage.getBooks ls) = none := hfi
    have hupd : Storage.updateBook id updates ls = (none, ls) := by
      simp only [Storage.updateBook, hfi']
    rw [hupd]
    exact ⟨⟨fun _ => (findIndex_none_iff _ _).mp hfi, fun _ => rfl⟩, fun _ => rfl⟩
  | some index =>
    obtain ⟨⟨target, htarget, hpt⟩, _⟩ := findIndex_some (hasId id) _ index hfi
    have hlen : index < (Storage.getBooks ls).length := by
      rcases List.getElem?_eq_some.mp htarget with ⟨h, _⟩
      exact h
    have hfi' : findIndex (fun book => strictEq (getProp book "id") id)
        (Storage.getBooks ls) = some index := hfi
    have hret : (Storage.updateBook id updates ls).1 = some (spread target updates) := by
      simp only [Storage.updateBook, hfi', List.getD_eq_getElem?_getD, htarget,
        Option.getD_some, List.getElem?_set_self hlen]
    rw [hret]
    refine ⟨⟨fun h => by simp at h, fun h => ?_⟩, fun h => by simp at h⟩
    have := h target (List.getElem?_mem htarget)
    rw [hpt] at this
    exact absurd this (by decide)

/-- C2, the theorem at a stored list of one book and an id no record has:
the result is `null` and the stored item is the same. -/
theorem updateBook_null_iff_absent_witness :
    (Storage.updateBook (.str "zz") (obj [("status", .str "completed")])
        (some [[("id", .str "a"), ("status", .str "to-read")]])).1 = none ∧
    (Storage.updateBook (.str "zz") (obj [("status", .str "completed")])
        (some [[("id", .str "a"), ("status", .str "to-read")]])).2
      = some [[("id", .str "a"), ("status", .str "to-read")]] :=
  ⟨(updateBook_null_iff_absent (some [[("id", .str "a"), ("status", .str "to-read")]])
      (.str "zz") (obj [("status", .str "completed")])).1.mpr (by decide),
    (updateBook_null_iff_absent (some [[("id", .str "a"), ("status", .str "to-read")]])
      (.str "zz") (obj [("status", .str "completed")])).2
      ((updateBook_null_iff_absent (some [[("id", .str "a"), ("status", .str "to-read")]])
        (.str "zz") (obj [("status", .str "completed")])).1.mpr (by decide))⟩

/-- C6 (as amended).  For every list of records whose values are all
representable in JSON, `saveBooks` followed by `getBooks` gives the list
back; a store in which the empty list was written reads back as the empty
list, as does a store whose key was never written. -/
theorem saveBooks_getBooks_roundtrip (bs : List Record) (ls : LocalStorage)
    (h : ∀ b ∈ bs, JsonSafe b) :
    Storage.getBooks (Storage.saveBooks bs ls) = bs ∧
    Storage.getBooks (Storage.saveBooks [] ls) = [] ∧
    Storage.getBooks none = [] :=
  ⟨getBooks_saveBooks bs ls h, rfl, rfl⟩

/-- C6, the theorem at a list of two books, written over an empty store. -/
theorem saveBooks_getBooks_roundtrip_witness :
    Storage.getBooks (Storage.saveBooks
        [obj [("id", .str "a"), ("rating", .num (.fin 4))], obj [("id", .str "b")]] none)
      = [obj [("id", .str "a"), ("rating", .num (.fin 4))], obj [("id", .str "b")]] :=
  (saveBooks_getBooks_roundtrip
    [obj [("id", .str "a"), ("rating", .num (.fin 4))], obj [("id", .str "b")]] none
    (by decide)).1

/-- C6 as stated fails: the list `addBook` hands to `saveBooks` when
`handleSubmit` read a form whose rating is empty holds a record with rating
`NaN`; it reads back with rating `null`. -/
theorem saveBooks_nan_not_read_back :
    getProp (Storage.addBook (BooksManager.bookData blankRatingManager) "u1" none).1 "rating"
      = .num .nan ∧
    (Storage.getBooks (Storage.saveBooks
        [(Storage.addBook (BooksManager.bookData blankRatingManager) "u1" none).1] none)).map
      (fun b => getProp b "rating") = [.null] ∧
    Storage.getBooks (Storage.saveBooks
        [(Storage.addBook (BooksManager.bookData blankRatingManager) "u1" none).1] none)
      ≠ [(Storage.addBook (BooksManager.bookData blankRatingManager) "u1" none).1] := by
  decide

/-! ## Identifiers -/

theorem updateBook_found (ls : LocalStorage) (id : JSVal) (updates : Record) (index : Nat)
    (target : Record) (hfi : findIndex (hasId id) (Storage.getBooks ls) = some index)
    (htarget : (Storage.getBooks ls)[index]? = some target) :
    Storage.updateBook id updates ls
      = (some (spread target updates),
          Storage.saveBooks ((Storage.getBooks ls).set index (spread target updates)) ls) := by
  have hlen : index < (Storage.getBooks ls).length := by
    rcases List.getElem?_eq_some.mp htarget with ⟨h, _⟩
    exact h
  have hfi' : findIndex (fun book => strictEq (getProp book "id") id)
      (Storage.getBooks ls) = some index := hfi
  simp only [Storage.updateBook, hfi', List.getD_eq_getElem?_getD, htarget,
    Option.getD_some, List.getElem?_set_self hlen]

theorem updateBook_not_found (ls : LocalStorage) (id : JSVal) (updates : Record)
    (hfi : findIndex (hasId id) (Storage.getBooks ls) = none) :
    Storage.updateBook id updates ls = (none, ls) := by
  have hfi' : findIndex (fun book => strictEq (getProp book "id") id)
      (Storage.getBooks ls) = none := hfi
  simp only [Storage.updateBook, hfi']

theorem stringified_keys_sublist (ps : Props) :
    List.Sublist
      (((ps.filterMap (fun kv => (JSON.stringifyValue kv.2).map (fun j => (kv.1, j)))).map
        (fun kv => (kv.1, JSON.parseValue kv.2))).map Prod.fst)
      (ps.map Prod.fst) := by
  induction ps with
  | nil => simp
  | cons e rest ih =>
    obtain ⟨k, v⟩ := e
    cases hv : JSON.stringifyValue v with
    | none =>
      simp only [List.filterMap_cons, hv, Option.map_none', List.map_cons]
      exact List.Sublist.cons k ih
    | some j =>
      simp only [List.filterMap_cons, hv, Option.map_some', List.map_cons]
      exact List.Sublist.cons₂ k ih

theorem lookupProp_stringified (ps : Props) (k : String) (h : (ps.map Prod.fst).Nodup) :
    lookupProp
      ((ps.filterMap (fun kv => (JSON.stringifyValue kv.2).map (fun j => (kv.1, j)))).map
        (fun kv => (kv.1, JSON.parseValue kv.2))) k
      = jsonNormalize (lookupProp ps k) := by
  induction ps with
  | nil => rfl
  | cons e rest ih =>
    obtain ⟨k0, v0⟩ := e
    simp only [List.map_cons, List.nodup_cons] at h
    have ih' := ih h.2
    by_cases hk : k0 = k
    · subst hk
      cases hv : JSON.stringifyValue v0 with
      | none =>
        simp only [List.filterMap_cons, hv, Option.map_none', lookupProp, if_true,
          jsonNormalize]
        apply lookupProp_of_not_mem
        intro hmem
        exact h.1 ((stringified_keys_sublist rest).subset hmem)
      | some j =>
        simp [List.filterMap_cons, hv, lookupProp, jsonNormalize]
    · cases hv : JSON.stringifyValue v0 with
      | none =>
        simp only [List.filterMap_cons, hv, Option.map_none', lookupProp, hk, if_false]
        exact ih'
      | some j =>
        simp only [List.filterMap_cons, hv, Option.map_some', List.map_cons, lookupProp, hk,
          if_false]
        exact ih'

theorem getProp_jsonImage (o : Record) (k : String) :
    getProp (jsonImage o) k = jsonNormalize (getProp o k) := by
  unfold getProp jsonImage JSON.parseObject JSON.stringifyObject obj
  simp only
  rw [assignAll_of_nodup _ [] ?_]
  · simpa using lookupProp_stringified o.props k o.nodup
  · simpa using (stringified_keys_sublist o.props).nodup o.nodup

theorem idsFrom_mono (used used' : List String) (ls : LocalStorage)
    (hsub : ∀ u ∈ used, u ∈ used') (h : IdsFrom used ls) : IdsFrom used' ls :=
  ⟨h.1, fun v hv => by
    obtain ⟨u, hu, rfl⟩ := h.2 v hv
    exact ⟨u, hsub u hu, rfl⟩⟩

theorem storedIds_addBook (ls : LocalStorage) (book : Record) (uuid : String) :
    storedIds (Storage.addBook book uuid ls).2 = storedIds ls ++ [.str uuid] := by
  unfold storedIds
  simp only [Storage.addBook, getBooks_saveBooks_map, List.map_append, List.map_map,
    List.map_cons, List.map_nil, Function.comp]
  congr 1
  · apply List.map_congr_left
    intro b hb
    simp only [Function.comp_apply]
    rw [jsonImage_of_jsonSafe b (jsonSafe_getBooks ls b hb)]
  · rw [getProp_jsonImage]
    have : getProp (setProp book "id" (.str uuid)) "id" = .str uuid :=
      getProp_setProp_self book "id" _
    rw [this]
    rfl

theorem storedIds_deleteBook (ls : LocalStorage) (id : JSVal) :
    List.Sublist (storedIds (Storage.deleteBook id ls)) (storedIds ls) := by
  unfold storedIds Storage.deleteBook
  simp only
  rw [getBooks_saveBooks]
  · exact (List.filter_sublist _).map _
  · intro b hb
    exact jsonSafe_getBooks ls b (List.mem_of_mem_filter hb)

theorem storedIds_updateBook (ls : LocalStorage) (id : JSVal) (updates : Record)
    (hno : "id" ∉ keys updates) :
    storedIds (Storage.updateBook id updates ls).2 = storedIds ls := by
  cases hfi : findIndex (hasId id) (Storage.getBooks ls) with
  | none => rw [updateBook_not_found ls id updates hfi]
  | some index =>
    obtain ⟨⟨target, htarget, _⟩, _⟩ := findIndex_some (hasId id) _ index hfi
    have hlen : index < (Storage.getBooks ls).length := by
      rcases List.getElem?_eq_some.mp htarget with ⟨h, _⟩
      exact h
    rw [updateBook_found ls id updates index target hfi htarget]
    unfold storedIds
    simp only [getBooks_saveBooks_map]
    apply List.ext_getElem?
    intro j
    simp only [List.getElem?_map]
    by_cases hj : index = j
    · subst hj
      rw [List.getElem?_set_self hlen, htarget]
      simp only [Option.map_some', Option.some.injEq]
      rw [getProp_jsonImage, getProp_spread, if_neg hno, ← getProp_jsonImage,
        jsonImage_of_jsonSafe target (jsonSafe_getBooks ls target (List.getElem?_mem htarget))]
    · rw [List.getElem?_set_ne hj, getElem?_getBooks_image]

theorem idsFrom_runCalls (cs : List StorageCall) (ls : LocalStorage) (used : List String)
    (hinv : IdsFrom used ls) (hfresh : (used ++ drawnIds cs).Nodup)
    (hupd : updatesLeaveId cs) : IdsFrom (used ++ drawnIds cs) (runCalls cs ls) := by
  induction cs generalizing ls used with
  | nil => simpa [runCalls, drawnIds] using hinv
  | cons c rest ih =>
    cases c with
    | addBook book uuid =>
      simp only [drawnIds] at hfresh ⊢
      simp only [updatesLeaveId] at hupd
      have hnew : uuid ∉ used := by
        intro hmem
        rw [List.nodup_append] at hfresh
        exact hfresh.2.2 hmem (List.mem_cons_self _ _)
      have hstep : IdsFrom (used ++ [uuid]) (Storage.addBook book uuid ls).2 := by
        constructor
        · rw [storedIds_addBook, List.nodup_append]
          refine ⟨hinv.1, List.nodup_singleton _, ?_⟩
          intro v hv hv'
          simp only [List.mem_singleton] at hv'
          subst hv'
          obtain ⟨u, hu, he⟩ := hinv.2 _ hv
          simp only [JSVal.str.injEq] at he
          subst he
          exact hnew hu
        · intro v hv
          rw [storedIds_addBook, List.mem_append] at hv
          rcases hv with hv | hv
          · obtain ⟨u, hu, rfl⟩ := hinv.2 v hv
            exact ⟨u, List.mem_append_left _ hu, rfl⟩
          · simp only [List.mem_singleton] at hv
            exact ⟨uuid, by simp, hv⟩
      have := ih (Storage.addBook book uuid ls).2 (used ++ [uuid]) hstep
        (by simpa using hfresh) hupd
      simpa [runCalls, StorageCall.run] using this
    | updateBook id updates =>
      simp only [drawnIds] at hfresh ⊢
      simp only [updatesLeaveId] at hupd
      have hstep : IdsFrom used (Storage.updateBook id updates ls).2 := by
        unfold IdsFrom
        rw [storedIds_updateBook ls id updates hupd.1]
        exact hinv
      have := ih (Storage.updateBook id updates ls).2 used hstep hfresh hupd.2
      simpa [runCalls, StorageCall.run] using this
    | deleteBook id =>
      simp only [drawnIds] at hfresh ⊢
      simp only [updatesLeaveId] at hupd
      have hstep : IdsFrom used (Storage.deleteBook id ls) :=
        ⟨(storedIds_deleteBook ls id).nodup hinv.1,
          fun v hv => hinv.2 v ((storedIds_deleteBook ls id).subset hv)⟩
      have := ih (Storage.deleteBook id ls) used hstep hfresh hupd
      simpa [runCalls, StorageCall.run] using this

/-- C5 (as amended).  Starting from the empty store, after every sequence
of `addBook`, `updateBook` and `deleteBook` calls in which the generator
never gives an identifier twice and no `updates` object has an `id`
property, the ids of the records of `getBooks()` are pairwise different,
and each is one of the generated identifiers. -/
theorem ids_unique_after_calls (cs : List StorageCall) (hfresh : (drawnIds cs).Nodup)
    (hupd : updatesLeaveId cs) :
    (storedIds (runCalls cs none)).Nodup ∧
    ∀ v ∈ storedIds (runCalls cs none), ∃ u ∈ drawnIds cs, v = .str u := by
  have hempty : IdsFrom [] none := ⟨by simp [storedIds, Storage.getBooks], by
    intro v hv
    simp [storedIds, Storage.getBooks] at hv⟩
  have := idsFrom_runCalls cs none [] hempty (by simpa using hfresh) hupd
  simpa [IdsFrom] using this

/-- C5, the theorem at a sequence of two additions, an update of the
status and a deletion. -/
theorem ids_unique_after_calls_witness :
    (storedIds (runCalls
      [.addBook (obj [("title", .str "Dune")]) "u1",
       .addBook (obj [("title", .str "Emma"), ("id", .str "u1")]) "u2",
       .updateBook (.str "u1") (obj [("status", .str "completed")]),
       .deleteBook (.str "u9")] none)).Nodup :=
  (ids_unique_after_calls
    [.addBook (obj [("title", .str "Dune")]) "u1",
     .addBook (obj [("title", .str "Emma"), ("id", .str "u1")]) "u2",
     .updateBook (.str "u1") (obj [("status", .str "completed")]),
     .deleteBook (.str "u9")] (by decide) ⟨by decide, trivial⟩).1

/-- C5 as stated fails: after two additions with different generated
identifiers, an `updateBook` whose `updates` carries the `id` of the other
record leaves two records with the same id. -/
theorem ids_collide_after_id_update :
    (drawnIds
      [.addBook (obj [("title", .str "Dune")]) "u1",
       .addBook (obj [("title", .str "Emma")]) "u2",
       .updateBook (.str "u1") (obj [("id", .str "u2")])]).Nodup ∧
    storedIds (runCalls
      [.addBook (obj [("title", .str "Dune")]) "u1",
       .addBook (obj [("title", .str "Emma")]) "u2",
       .updateBook (.str "u1") (obj [("id", .str "u2")])] none)
      = [.str "u2", .str "u2"] ∧
    ¬ (storedIds (runCalls
      [.addBook (obj [("title", .str "Dune")]) "u1",
       .addBook (obj [("title", .str "Emma")]) "u2",
       .updateBook (.str "u1") (obj [("id", .str "u2")])] none)).Nodup := by
  decide

/-! ## Rendering -/

theorem jsRepeat_char (c : Char) (n : Nat) :
    jsRepeat (String.mk [c]) (.fin n) = .ok (String.mk (List.replicate n c)) := by
  simp [jsRepeat]

/-- C9 (as amended).  For every book whose status is a string and whose
rating is an integer `r`: when `0 ≤ r ≤ 5`, the markup `createBookCard`
builds is produced without error and its star string is `r` filled stars
followed by `5 - r` unfilled ones, five glyphs in all, and the card carries
that star string when its buttons are found in the parsed markup; when
`r < 0` or `r > 5`, building the markup throws a `RangeError`, and so does
`createBookCard`. -/
theorem createBookCard_stars (env : Browser) (book : Record) (status : String) (r : Int)
    (hstatus : getProp book "status" = .str status)
    (hrating : getProp book "rating" = .num (.fin r)) :
    (0 ≤ r ∧ r ≤ 5 →
      ∃ markup, BooksManager.cardMarkup env book = .ok markup ∧
        markup.stars.toList
          = List.replicate r.toNat '★' ++ List.replicate (5 - r).toNat '☆' ∧
        markup.stars.length = 5 ∧
        (env.buttonsParsed book = true →
          ∃ card, BooksManager.createBookCard env book = .ok card ∧
            card.stars = markup.stars)) ∧
    (r < 0 ∨ 5 < r →
      BooksManager.cardMarkup env book = .error .rangeError ∧
      BooksManager.createBookCard env book = .error .rangeError) := by
  have hstar : ("★" : String) = String.mk ['★'] := rfl
  have hempty : ("☆" : String) = String.mk ['☆'] := rfl
  constructor
  · rintro ⟨h0, h5⟩
    obtain ⟨n, rfl⟩ := Int.eq_ofNat_of_zero_le h0
    have h5' : n ≤ 5 := by omega
    have hsub : (5 : Int) - (n : Int) = ((5 - n : Nat) : Int) := by omega
    have hm : BooksManager.cardMarkup env book
        = .ok { statusLabel := String.mk (replaceHyphen status.toList),
                stars := String.mk (List.replicate n '★')
                  ++ String.mk (List.replicate (5 - n) '☆') } := by
      simp only [BooksManager.cardMarkup, hstatus, hrating, toNumber, numSub]
      rw [hsub, hstar, hempty, jsRepeat_char, jsRepeat_char]
    refine ⟨_, hm, ?_, ?_, ?_⟩
    · simp only [String.toList, String.data_append]
      rw [hsub]
      simp
    · simp only [String.length_append, String.length_mk, List.length_replicate]
      omega
    · intro hb
      refine ⟨{ book := book, statusLabel := String.mk (replaceHyphen status.toList),
                stars := String.mk (List.replicate n '★')
                  ++ String.mk (List.replicate (5 - n) '☆') }, ?_, rfl⟩
      simp only [BooksManager.createBookCard, hm, hb, if_true]
  · intro h
    have hm : BooksManager.cardMarkup env book = .error .rangeError := by
      simp only [BooksManager.cardMarkup, hstatus, hrating, toNumber, numSub]
      rcases h with h | h
      · simp [jsRepeat, h]
      · have h1 : ¬ r < 0 := by omega
        have h2 : 5 - r < 0 := by omega
        simp [jsRepeat, h1, h2]
    exact ⟨hm, by simp only [BooksManager.createBookCard, hm]⟩

/-- C9, the theorem at the stored book of the spec's scenario, rating 4. -/
theorem createBookCard_stars_witness :
    ∃ markup, BooksManager.cardMarkup sampleBrowser
        (obj [("id", .str "u1"), ("title", .str "Dune"), ("status", .str "to-read"),
          ("rating", .num (.fin 4))]) = .ok markup ∧
      markup.stars.toList
        = List.replicate (4 : Int).toNat '★' ++ List.replicate (5 - 4 : Int).toNat '☆' ∧
      markup.stars.length = 5 ∧
      (sampleBrowser.buttonsParsed (obj [("id", .str "u1"), ("title", .str "Dune"),
          ("status", .str "to-read"), ("rating", .num (.fin 4))]) = true →
        ∃ card, BooksManager.createBookCard sampleBrowser
            (obj [("id", .str "u1"), ("title", .str "Dune"), ("status", .str "to-read"),
              ("rating", .num (.fin 4))]) = .ok card ∧
          card.stars = markup.stars) :=
  (createBookCard_stars sampleBrowser
    (obj [("id", .str "u1"), ("title", .str "Dune"), ("status", .str "to-read"),
      ("rating", .num (.fin 4))]) "to-read" 4 (by decide) (by decide)).1 (by decide)

/-- C9 as stated fails: for a stored book with rating 7 the second
`repeat` gets the count -2 and building the markup throws a `RangeError`;
with rating -1 the first `repeat` throws; and a stored book without a
status makes `book.status.replace` throw a `TypeError`. -/
theorem createBookCard_throws_out_of_range :
    (Storage.getBooks (some [[("id", .str "a"), ("status", .str "reading"), ("rating", .num 7)],
        [("id", .str "b"), ("status", .str "reading"), ("rating", .num (-1))],
        [("id", .str "c"), ("rating", .num 3)]])).map
      (fun book => (BooksManager.cardMarkup sampleBrowser book).toOption)
      = [none, none, none] ∧
    BooksManager.cardMarkup sampleBrowser
        (obj [("id", .str "a"), ("status", .str "reading"), ("rating", .num (.fin 7))])
      = .error .rangeError ∧
    BooksManager.createBookCard sampleBrowser
        (obj [("id", .str "a"), ("status", .str "reading"), ("rating", .num (.fin 7))])
      = .error .rangeError ∧
    BooksManager.cardMarkup sampleBrowser
        (obj [("id", .str "b"), ("status", .str "reading"), ("rating", .num (.fin (-1)))])
      = .error .rangeError ∧
    BooksManager.cardMarkup sampleBrowser (obj [("id", .str "c"), ("rating", .num (.fin 3))])
      = .error .typeError := by
  refine ⟨by decide, rfl, rfl, rfl, rfl⟩

/-! ## `parseInt` on decimal numerals -/

theorem digitValue_digitChar (d : Nat) (h : d < 10) : digitValue (digitChar d) = some d := by
  interval_cases d <;> rfl

theorem radixDigits_digitChars (ds : List Nat) (h : ∀ d ∈ ds, d < 10) :
    radixDigits 10 (ds.map digitChar) = ds := by
  induction ds with
  | nil => rfl
  | cons d t ih =>
    have hd : d < 10 := h d (List.mem_cons_self _ _)
    simp only [List.map_cons, radixDigits, digitValue_digitChar d hd, hd, if_true]
    rw [ih (fun x hx => h x (List.mem_cons_of_mem _ hx))]

theorem digitChars_plain (d : Nat) (t : List Nat) (hd : d < 10) (ht : ∀ x ∈ t, x < 10) :
    List.dropWhile isStrWhiteSpaceChar ((d :: t).map digitChar) = (d :: t).map digitChar ∧
    parseSign ((d :: t).map digitChar) = 1 ∧
    dropSign ((d :: t).map digitChar) = (d :: t).map digitChar ∧
    parseRadix ((d :: t).map digitChar) = 10 ∧
    dropRadixMark ((d :: t).map digitChar) = (d :: t).map digitChar := by
  cases t with
  | nil => interval_cases d <;> exact ⟨rfl, rfl, rfl, rfl, rfl⟩
  | cons d1 t1 =>
    have hd1 : d1 < 10 := ht d1 (List.mem_cons_self _ _)
    interval_cases d <;> interval_cases d1 <;> exact ⟨rfl, rfl, rfl, rfl, rfl⟩

theorem toDouble_of_lt (n : Nat) (h : n < 2 ^ 53) : toDouble n = some n := by
  unfold toDouble
  rw [if_pos h]

theorem parseInt_decimal (ds : List Nat) (hne : ds ≠ []) (hd : ∀ d ∈ ds, d < 10)
    (hv : mathInt 10 ds < 2 ^ 53) :
    parseInt (String.mk (ds.map digitChar)) = .fin (mathInt 10 ds) := by
  cases ds with
  | nil => exact absurd rfl hne
  | cons d t =>
    obtain ⟨h1, h2, h3, h4, h5⟩ := digitChars_plain d t (hd d (List.mem_cons_self _ _))
      (fun x hx => hd x (List.mem_cons_of_mem _ hx))
    unfold parseInt
    simp only [String.toList]
    simp only [h1, h2, h3, h4, h5, radixDigits_digitChars (d :: t) hd]
    rw [toDouble_of_lt _ hv]
    simp

/-! ## Submitting the form -/

theorem getBooks_addBook (ls : LocalStorage) (book : Record) (uuid : String) :
    Storage.getBooks (Storage.addBook book uuid ls).2
      = Storage.getBooks ls ++ [jsonImage (setProp book "id" (.str uuid))] := by
  simp only [Storage.addBook, getBooks_saveBooks_map, List.map_append, List.map_cons,
    List.map_nil, List.append_cancel_right_eq]
  apply List.ext_getElem?
  intro j
  rw [List.getElem?_map]
  exact getElem?_getBooks_image ls j

theorem renderBooks_storage (env : Browser) (m : BooksManager) (ls : LocalStorage) :
    (BooksManager.renderBooks env m ls).storage = ls := by
  unfold BooksManager.renderBooks
  simp only
  split <;> rfl

theorem handleSubmit_storage (env : Browser) (uuid : String) (m : BooksManager)
    (ls : LocalStorage) :
    (BooksManager.handleSubmit env uuid m ls).storage = BooksManager.submitStore uuid m ls := by
  unfold BooksManager.handleSubmit
  exact renderBooks_storage _ _ _

theorem getProp_bookData_rating (m : BooksManager) :
    getProp (BooksManager.bookData m) "rating"
      = .num (parseInt m.elements.bookForm.rating) := by
  simp [BooksManager.bookData, obj, assignAll, assignProp, getProp, lookupProp]

theorem rating_mem_keys_bookData (m : BooksManager) :
    "rating" ∈ keys (BooksManager.bookData m) := by
  simp [BooksManager.bookData, obj, assignAll, assignProp, keys]

/-- C8 (as amended).  The candidate record of `handleSubmit` has
`parseInt` of the rating text as its rating.  When that is a finite number
`i`, the rating is an integer, and the record read back has the same
rating: the record appended by `addBook` when `editingBookId` is falsy, the
record at the position `updateBook` found when `editingBookId` is truthy
and matches a stored record.  For a rating text that is a decimal numeral
of a value below `2 ^ 53`, `i` is that value. -/
theorem handleSubmit_integer_rating_read_back (env : Browser) (uuid : String)
    (m : BooksManager) (ls : LocalStorage) (i : Int)
    (hparse : parseInt m.elements.bookForm.rating = .fin i) :
    getProp (BooksManager.bookData m) "rating" = .num (.fin i) ∧
    isInteger (getProp (BooksManager.bookData m) "rating") = true ∧
    (truthy m.editingBookId = false →
      ∃ stored,
        Storage.getBooks (BooksManager.handleSubmit env uuid m ls).storage
          = Storage.getBooks ls ++ [stored] ∧
        getProp stored "rating" = .num (.fin i)) ∧
    (truthy m.editingBookId = true →
      ∀ index, findIndex (hasId m.editingBookId) (Storage.getBooks ls) = some index →
        ∃ stored,
          (Storage.getBooks (BooksManager.handleSubmit env uuid m ls).storage)[index]?
            = some stored ∧
          getProp stored "rating" = .num (.fin i)) ∧
    (∀ ds : List Nat, ds ≠ [] → (∀ d ∈ ds, d < 10) → mathInt 10 ds < 2 ^ 53 →
      m.elements.bookForm.rating = String.mk (ds.map digitChar) →
      i = (mathInt 10 ds : Int)) := by
  have hcand : getProp (BooksManager.bookData m) "rating" = .num (.fin i) := by
    rw [getProp_bookData_rating, hparse]
  refine ⟨hcand, by rw [hcand]; rfl, ?_, ?_, ?_⟩
  · intro hfalsy
    refine ⟨jsonImage (setProp (BooksManager.bookData m) "id" (.str uuid)), ?_, ?_⟩
    · rw [handleSubmit_storage]
      simp only [BooksManager.submitStore, hfalsy, Bool.false_eq_true, if_false]
      exact getBooks_addBook ls _ uuid
    · rw [getProp_jsonImage, getProp_setProp_ne _ "id" "rating" _ (by decide), hcand]
      rfl
  · intro htruthy index hfi
    obtain ⟨⟨target, htarget, _⟩, _⟩ := findIndex_some (hasId m.editingBookId) _ index hfi
    have hlen : index < (Storage.getBooks ls).length := by
      rcases List.getElem?_eq_some.mp htarget with ⟨h, _⟩
      exact h
    refine ⟨jsonImage (spread target (BooksManager.bookData m)), ?_, ?_⟩
    · rw [handleSubmit_storage]
      simp only [BooksManager.submitStore, htruthy, if_true]
      rw [updateBook_found ls _ _ index target hfi htarget]
      simp only [getBooks_saveBooks_map, List.getElem?_map]
      rw [List.getElem?_set_self hlen]
      rfl
    · rw [getProp_jsonImage, getProp_spread, if_pos (rating_mem_keys_bookData m), hcand]
      rfl
  · intro ds hne hd hv htext
    rw [htext, parseInt_decimal ds hne hd hv] at hparse
    simp only [JSNum.fin.injEq] at hparse
    exact hparse.symm

/-- C8, the theorem at a form whose rating field holds the text 4,
submitted in create mode over an empty store. -/
theorem handleSubmit_integer_rating_read_back_witness :
    getProp (BooksManager.bookData
        { elements := { sampleElements with
            bookForm := { title := "Dune", author := "Herbert", cover := "x.jpg",
                          status := "to-read", rating := "4" } },
          editingBookId := .null }) "rating" = .num (.fin 4) :=
  (handleSubmit_integer_rating_read_back sampleBrowser "u1"
    { elements := { sampleElements with
        bookForm := { title := "Dune", author := "Herbert", cover := "x.jpg",
                      status := "to-read", rating := "4" } },
      editingBookId := .null } none 4 (by decide)).1

/-- C8 as stated fails: with an empty rating field the candidate record
has rating `NaN`, which is not an integer, and the record read back after
the submit has rating `null`; a text without a leading number does the
same. -/
theorem handleSubmit_empty_rating_is_nan :
    parseInt "" = .nan ∧ parseInt "five" = .nan ∧
    getProp (BooksManager.bookData blankRatingManager) "rating" = .num .nan ∧
    isInteger (getProp (BooksManager.bookData blankRatingManager) "rating") = false ∧
    (Storage.getBooks
        (BooksManager.handleSubmit sampleBrowser "u1" blankRatingManager none).storage).map
      (fun b => getProp b "rating") = [.null] := by
  decide

/-! ## The modal and `editingBookId` -/

end BookManager
